import Mathlib

/-!
Shallow embedding of the `venv` CLI's dependency-manifest reconciliation and
environment-orchestration engine (sources: `src/index.ts`, `src/utils.ts`),
with theorems settling the frozen claims about its specification.

Conventions:
* JavaScript `string | null | undefined` inputs are modelled as `Option String`.
* Fallible async code that can call `process.exit(code)` is modelled with
  `Except Nat` (the error value is the exit code).
* Side effects (manifest reads/writes, child-process spawns, console output)
  are recorded in an explicit effect trace.
-/

deriving instance DecidableEq for Except

namespace Venv

/-! ## Kernel-computable models of the JavaScript string primitives

Lean core's byte-position-based `String` functions do not reduce inside the
kernel, so the JS string methods used by the source are re-implemented here
over `List Char`.  Each is a faithful model of the corresponding JS method
for the inputs arising in this program (ASCII text; non-empty separators). -/

/-- Holds when, for `leadsWith pre cs`, `pre` occurs at the head of `cs`. -/
def leadsWith : List Char → List Char → Bool
  | [], _ => true
  | _ :: _, [] => false
  | s :: ss, c :: cc => s == c && leadsWith ss cc

/-- JS `String.prototype.startsWith`. -/
def jsStartsWith (s pre : String) : Bool :=
  leadsWith pre.data s.data

/-- JS `String.prototype.trim` (ASCII whitespace). -/
def jsTrim (s : String) : String :=
  String.mk (((s.data.dropWhile Char.isWhitespace).reverse.dropWhile Char.isWhitespace).reverse)

/-- Fuel-driven worker for `jsSplitOn`; `fuel ≥ length + 1` makes the fuel
case unreachable for non-empty separators. -/
def splitListAux (sep : List Char) : Nat → List Char → List Char → List (List Char)
  | 0, cs, acc => [acc.reverse ++ cs]
  | _ + 1, [], acc => [acc.reverse]
  | n + 1, c :: rest, acc =>
    if leadsWith sep (c :: rest) then
      acc.reverse :: splitListAux sep n ((c :: rest).drop sep.length) []
    else
      splitListAux sep n rest (c :: acc)

/-- JS `String.prototype.split` with a non-empty string separator. -/
def jsSplitOn (s sep : String) : List String :=
  (splitListAux sep.data (s.data.length + 1) s.data []).map String.mk

/-- JS `String.prototype.split(/\s+/)`: separators are maximal runs of
whitespace; a leading (or trailing) run contributes a leading (trailing)
empty piece. -/
def splitWsAux : Nat → List Char → List Char → List (List Char)
  | 0, cs, acc => [acc.reverse ++ cs]
  | _ + 1, [], acc => [acc.reverse]
  | n + 1, c :: rest, acc =>
    if c.isWhitespace then
      acc.reverse :: splitWsAux n (rest.dropWhile Char.isWhitespace) []
    else
      splitWsAux n rest (c :: acc)

/-- JS `String.prototype.split(/\s+/)`. -/
def jsSplitWs (s : String) : List String :=
  (splitWsAux (s.data.length + 1) s.data []).map String.mk

/-- JS `String.prototype.includes` for a non-empty search string. -/
def jsIncludes : List Char → List Char → Bool
  | _, [] => false
  | sub, c :: rest => leadsWith sub (c :: rest) || jsIncludes sub rest

/-- Whether `sub` occurs as a contiguous substring of `s` (JS `includes`,
non-empty `sub`). -/
def includesSub (s sub : String) : Bool :=
  sub.data.isEmpty || jsIncludes sub.data s.data

/-- Digits-only string to `Nat` (the behavior of Lean's `String.toNat?`,
re-implemented so it reduces in the kernel). -/
def digitsToNat (s : String) : Option Nat :=
  if s.data.isEmpty || !s.data.all Char.isDigit then none
  else some (s.data.foldl (fun n c => n * 10 + (c.toNat - 48)) 0)

/-- Joins strings with a separator (JS `Array.prototype.join`). -/
def joinSep (sep : String) : List String → String
  | [] => ""
  | [x] => x
  | x :: xs => x ++ sep ++ joinSep sep xs

/-! ## Semantic version model

The repository takes `SemVer` from the external `@travvy/utils` library whose
source is not part of this repository; the spec describes it in §4.1. -/

/-- Modelled from the spec: the `SemVer` record of the external `@travvy/utils`
library (§3): non-negative `major.minor.patch` with optional `metadata`. -/
structure SemVer where
  major : Nat
  minor : Nat
  patch : Nat
  metadata : Option String := none
deriving Repr, DecidableEq

/-- Modelled from the spec: `SemVer.parse` of the external `@travvy/utils`
library (§4.1): accepts `major.minor.patch` with an optional `+metadata`
suffix; fails on missing or non-numeric components. -/
def SemVer.parse (s : String) : Option SemVer :=
  let parts := jsSplitOn s "+"
  let base := parts.headD s
  let md : Option String :=
    match parts with
    | _ :: rest@(_ :: _) => some (joinSep "+" rest)
    | _ => none
  match jsSplitOn base "." with
  | [a, b, c] =>
    match digitsToNat a, digitsToNat b, digitsToNat c with
    | some major, some minor, some patch =>
      some { major := major, minor := minor, patch := patch, metadata := md }
    | _, _, _ => none
  | _ => none

/-- Modelled from the spec: `SemVer.toString` of the external `@travvy/utils`
library (§4.1): canonical `major.minor.patch`, metadata omitted. -/
def SemVer.toString (v : SemVer) : String :=
  Nat.repr v.major ++ "." ++ Nat.repr v.minor ++ "." ++ Nat.repr v.patch

/-- One manifest entry (`src/utils.ts` type `Requirement`). -/
structure Requirement where
  name : String
  version : SemVer
deriving Repr, DecidableEq

/-! ## JS character classes and regex helpers for `extractPackageName` -/

/-- JS regex class `\w`: ASCII letters, digits and underscore. -/
def isWordChar (c : Char) : Bool :=
  c.isAlphanum || c == '_'

/-- JS regex class `[\w.-]` used for package-name and URL segments. -/
def isNameChar (c : Char) : Bool :=
  isWordChar c || c == '.' || c == '-'

/-- JS regex class `[\w-]` used for the scope part of `@scope/name`. -/
def isScopeChar (c : Char) : Bool :=
  isWordChar c || c == '-'

/-- JS regex class `[@\s=<>~^]`: the version/comparator separators that may
follow a plain package name. -/
def isVersionSep (c : Char) : Bool :=
  c == '@' || c.isWhitespace || c == '=' || c == '<' || c == '>' || c == '~' || c == '^'

/-- The scoped-package regex of `extractPackageName` (`src/utils.ts:283`):
`^(@[\w-]+\/[\w.-]+)(?:@.*)?$`, returning capture group 1.
All class/boundary pairs are disjoint, so greedy matching is deterministic. -/
def scopedMatch (s : String) : Option String :=
  match s.data with
  | '@' :: rest =>
    let scope := rest.takeWhile isScopeChar
    match rest.dropWhile isScopeChar with
    | '/' :: r2 =>
      let nm := r2.takeWhile isNameChar
      if scope.isEmpty || nm.isEmpty then none
      else
        match r2.dropWhile isNameChar with
        | [] => some (String.mk ('@' :: scope ++ '/' :: nm))
        | '@' :: _ => some (String.mk ('@' :: scope ++ '/' :: nm))
        | _ => none
    | _ => none
  | _ => none

/-- The plain-name regex of `extractPackageName` (`src/utils.ts:292`):
`^([\w.-]+)(?:[@\s=<>~^].*)?$`, returning capture group 1.  `[\w.-]` and
`[@\s=<>~^]` are disjoint, so the greedy group boundary is deterministic. -/
def plainNameMatch (s : String) : Option String :=
  let nm := s.data.takeWhile isNameChar
  if nm.isEmpty then none
  else
    match s.data.dropWhile isNameChar with
    | [] => some (String.mk nm)
    | c :: _ => if isVersionSep c then some (String.mk nm) else none

/-- Matches `https?:\/\/` at the head of the character list (the scheme part of
the URL regex at `src/utils.ts:300`), returning the remainder. -/
def stripScheme (cs : List Char) : Option (List Char) :=
  match cs with
  | 'h' :: 't' :: 't' :: 'p' :: 's' :: ':' :: '/' :: '/' :: r => some r
  | 'h' :: 't' :: 't' :: 'p' :: ':' :: '/' :: '/' :: r => some r
  | _ => none

/-- One `[\w.-]+` URL segment: the (greedy) maximal run, `none` if empty. -/
def urlSegment (cs : List Char) : Option (List Char × List Char) :=
  let seg := cs.takeWhile isNameChar
  if seg.isEmpty then none else some (seg, cs.dropWhile isNameChar)

/-- The URL regex of `extractPackageName` (`src/utils.ts:300`):
`^(git\+)?(https?:\/\/[\w.-]+\/[\w.-]+\/[\w.-]+)(\.git)?(@.*)?$`.
The source splits capture group 2 on `/` and returns the last part, which is
exactly the third greedy `[\w.-]+` segment.  Because `.`, `g`, `i`, `t` all
belong to `[\w.-]`, the greedy third segment always absorbs any `.git` text,
so the `(\.git)?` group can only ever match the empty string (backtracking
cannot produce a different overall match: shrinking the segment by `.git`
re-imposes the same tail condition).  The embedding therefore takes the
maximal run and requires the remainder to be empty or to start with `@`. -/
def urlMatch (s : String) : Option String :=
  let cs := if jsStartsWith s "git+" then s.data.drop 4 else s.data
  match stripScheme cs with
  | none => none
  | some r0 =>
    match urlSegment r0 with
    | none => none
    | some (_host, r1) =>
      match r1 with
      | '/' :: r2 =>
        match urlSegment r2 with
        | none => none
        | some (_org, r3) =>
          match r3 with
          | '/' :: r4 =>
            match urlSegment r4 with
            | none => none
            | some (repo, r5) =>
              match r5 with
              | [] => some (String.mk repo)
              | '@' :: _ => some (String.mk repo)
              | _ => none
          | _ => none
      | _ => none

/-- Embeds `extractPackageName` (`src/utils.ts:268-308`).  Branch order as in the
source: non-string input, trim, empty check, scoped-package regex (only tried
when the string starts with `@`), plain-name regex, URL regex, else `null`. -/
def extractPackageName (packageSpec : Option String) : Option String :=
  match packageSpec with
  | none => none
  | some s =>
    let ps := jsTrim s
    if ps.data.length = 0 then none
    else
      match (if jsStartsWith ps "@" then scopedMatch ps else none) with
      | some nm => some nm
      | none =>
        match plainNameMatch ps with
        | some nm => some nm
        | none => urlMatch ps

/-- Embeds `extractPackageVersion` (`src/utils.ts:310-319`): trims, then strips all
leading non-digit characters and returns the remainder verbatim. -/
def extractPackageVersion (packageSpec : Option String) : Option String :=
  match packageSpec with
  | none => none
  | some s =>
    some (String.mk ((jsTrim s).data.dropWhile (fun c => !c.isDigit)))

/-! ## Manifest store (`src/utils.ts:56-92`)

The manifest file is modelled as `Option String`: `none` when
`requirements.txt` does not exist, `some content` otherwise. -/

/-- Result of a manifest read: emitted diagnostics plus either the parsed
requirement list or the error a rejected `readFile` promise propagates. -/
structure ReadOutcome where
  diags : List String
  result : Except String (List Requirement)
deriving Repr, DecidableEq

/-- The per-line mapper inside `getExistingDependencies`
(`src/utils.ts:79-90`): split on `==`, drop the line when either half is
empty or missing (silently) or when the version fails semver parsing (with a
diagnostic).  Returns the parsed entry (if any) and the diagnostics. -/
def parseRequirementLine (line : String) : Option Requirement × List String :=
  match jsSplitOn line "==" with
  | name :: version :: _ =>
    if name = "" || version = "" then (none, [])
    else
      match SemVer.parse version with
      | none => (none, ["Invalid semver for " ++ name ++ ": " ++ version ++ ", skipping..."])
      | some v => (some { name := name, version := v }, [])
  | _ => (none, [])

/-- Embeds `getExistingDependencies` (`src/utils.ts:67-92`).  When the file is
missing the source logs `No requirements.txt found` and then still calls
`fs.promises.readFile`, whose promise rejects with `ENOENT`; that rejection
is modelled as `Except.error "ENOENT"`.  Otherwise the content is trimmed,
split on newlines, mapped with `parseRequirementLine` and the `null` results
are filtered out. -/
def getExistingDependencies (file : Option String) : ReadOutcome :=
  match file with
  | none =>
    { diags := ["No requirements.txt found"], result := Except.error "ENOENT" }
  | some content =>
    let lines := jsSplitOn (jsTrim content) "\n"
    let mapped := lines.map parseRequirementLine
    { diags := (mapped.map Prod.snd).flatten
      result := Except.ok ((mapped.map Prod.fst).filterMap id) }

/-- Embeds `writeDependencies` (`src/utils.ts:56-65`): the file content of a full
manifest overwrite — one `name==version` line per entry, trimmed, with a
trailing newline. -/
def writeDependencies (dependencies : List Requirement) : String :=
  jsTrim (joinSep "\n" (dependencies.map
    (fun dep => dep.name ++ "==" ++ SemVer.toString dep.version))) ++ "\n"

/-! ## Environment tool adapter (`src/utils.ts:204-216`) -/

/-- The fixed environment marker path checked by both adapter shapes. -/
def venvActivatePath : String := ".venv/bin/activate"

/-- The shell command both adapter shapes hand to the child process. -/
def withVenvCmd (command : String) : String :=
  "source \x22" ++ venvActivatePath ++ "\x22 && " ++ command

/-- Embeds `withVenv` (`src/utils.ts:205-210`): given whether the marker path exists
and the behavior `sh` of `execShell`, returns the exit code together with the
list of child-process commands spawned. Missing marker: sentinel exit code 1,
no spawn. -/
def withVenv (envExists : Bool) (sh : String → Nat) (command : String) :
    Nat × List String :=
  if envExists then (sh (withVenvCmd command), [withVenvCmd command])
  else (1, [])

/-- Embeds `withVenvGet` (`src/utils.ts:211-216`): given whether the marker path
exists and the behavior `g` of `execShellGet`, returns the captured result
together with the list of child-process commands spawned. Missing marker:
`No virtual environment found` error, no spawn. -/
def withVenvGet (envExists : Bool) (g : String → Except String String)
    (command : String) : Except String String × List String :=
  if envExists then (g (withVenvCmd command), [withVenvCmd command])
  else (Except.error "No virtual environment found", [])

/-! ## Effect-trace model of the reconciliation engine (`src/index.ts`)

Per-package operations are modelled as explicit state-passing functions over
a state holding the current manifest and a trace of observable effects.
`process.exit(code)` is modelled as `Except.error code`. -/

/-- Behavior of the external environment tool: `runExit` models `execShell`
(exit code only), `getOut` models `execShellGet` (captured result). -/
structure Tool where
  runExit : String → Nat
  getOut : String → Except String String

/-- The fixed parts of a run: whether the environment marker exists and how
the external tool behaves. -/
structure World where
  envExists : Bool
  tool : Tool

/-- Observable effects of the engine. -/
inductive Effect where
  | manifestRead : Effect
  | manifestWrite (reqs : List Requirement) : Effect
  | spawn (cmd : String) : Effect
  | consoleErr (msg : String) : Effect
  | consoleOut (msg : String) : Effect
deriving Repr, DecidableEq

/-- Mutable state threaded through an operation: the manifest (as the parsed
requirement list the store round-trips) and the effect trace so far. -/
structure St where
  manifest : List Requirement
  trace : List Effect
deriving Repr, DecidableEq

/-- Appends one effect to the trace. -/
def St.emit (st : St) (e : Effect) : St :=
  { st with trace := st.trace ++ [e] }

/-- Runs `withVenv` inside the trace model: spawned commands are recorded. -/
def mWithVenv (w : World) (command : String) (st : St) : Nat × St :=
  let r := withVenv w.envExists w.tool.runExit command
  (r.1, { st with trace := st.trace ++ r.2.map Effect.spawn })

/-- Runs `withVenvGet` inside the trace model: spawned commands are recorded. -/
def mWithVenvGet (w : World) (command : String) (st : St) :
    Except String String × St :=
  let r := withVenvGet w.envExists w.tool.getOut command
  (r.1, { st with trace := st.trace ++ r.2.map Effect.spawn })

/-- Reads the manifest inside the trace model (`getExistingDependencies` with
the file present; the missing-file behavior is settled separately on
`getExistingDependencies`). -/
def mReadManifest (st : St) : List Requirement × St :=
  (st.manifest, st.emit Effect.manifestRead)

/-- Writes the manifest inside the trace model (`writeDependencies`). -/
def mWriteManifest (reqs : List Requirement) (st : St) : St :=
  { manifest := reqs, trace := st.trace ++ [Effect.manifestWrite reqs] }

/-! ## Install (`src/index.ts:219-278`) -/

/-- The `Version:` extraction inside `installOne` (`src/index.ts:259-269`):
trim the `pip3 show` output, find the first line starting with `Version:`,
take the text after the first `:`, trim it; empty or absent is a failure. -/
def versionFromShow (s : String) : Option String :=
  match (jsSplitOn (jsTrim s) "\n").find? (fun line => jsStartsWith line "Version:") with
  | none => none
  | some line =>
    match (jsSplitOn line ":")[1]? with
    | none => none
    | some v =>
      let v := jsTrim v
      if v = "" then none else some v

/-- Embeds `installOne` (`src/index.ts:242-278`): extract the canonical name
(`process.exit(1)` when `null`), read the manifest, drop the stale entry for
that name, run the tool install, query `pip3 show`, parse the `Version:`
line as a semver (`process.exit(1)` on any failure), then append the new
entry and write the manifest — a per-item read-modify-write. -/
def installOne (w : World) (pkg : String) (st : St) :
    St × Except Nat (String × String) :=
  match extractPackageName (some pkg) with
  | none => (st.emit (Effect.consoleErr ("Invalid package name " ++ pkg)), Except.error 1)
  | some pkgName =>
    let r0 := mReadManifest st
    let existingDependencies := r0.1.filter (fun dep => dep.name != pkgName)
    let st := (mWithVenv w ("pip3 install " ++ pkg) r0.2).2
    let r1 := mWithVenvGet w ("pip3 show " ++ pkgName) st
    let st := r1.2
    match r1.1 with
    | Except.error msg => (st.emit (Effect.consoleErr msg), Except.error 1)
    | Except.ok out =>
      match versionFromShow out with
      | none =>
        (st.emit (Effect.consoleErr ("Failed to get version for " ++ pkgName)), Except.error 1)
      | some pkgVersion =>
        match SemVer.parse pkgVersion with
        | none =>
          (st.emit (Effect.consoleErr ("Invalid semver for " ++ pkgName ++ ": " ++ pkgVersion)),
            Except.error 1)
        | some semver =>
          let st := mWriteManifest
            (existingDependencies ++ [{ name := pkgName, version := semver }]) st
          (st, Except.ok (pkg, pkgVersion))

/-- The batch of concurrent `installOne` tasks joined by `Promise.all`
(`src/index.ts:227-231`), serialized in list order.  A `process.exit` in any
task terminates the whole process, so it propagates as `Except.error`.  The
statements proved below (effect counts, abort behavior) are invariant under
the interleaving of the per-item traces, so this serialization loses no
generality for them. -/
def installBatch (w : World) (specs : List String) (st : St) :
    St × Except Nat (List (String × String)) :=
  match specs with
  | [] => (st, Except.ok [])
  | pkg :: rest =>
    match installOne w pkg st with
    | (st, Except.error code) => (st, Except.error code)
    | (st, Except.ok r) =>
      match installBatch w rest st with
      | (st, Except.error code) => (st, Except.error code)
      | (st, Except.ok rs) => (st, Except.ok (r :: rs))

/-- Note that `install` (`src/index.ts:219-240`) splits its single argument on single
spaces to obtain the batch's specifiers. -/
def installSpecs (pkgs : String) : List String :=
  jsSplitOn pkgs " "

/-- Embeds `install` (`src/index.ts:219-240`): no argument means `pip3 install -r
requirements.txt`; otherwise the argument is split on spaces and each piece
becomes one concurrent `installOne` task. -/
def installCommand (w : World) (arg : Option String) (st : St) :
    St × Except Nat (Option (List (String × String))) :=
  match arg with
  | none =>
    let st := st.emit (Effect.consoleOut "Installing all dependencies from requirements.txt")
    let st := (mWithVenv w "pip3 install -r requirements.txt" st).2
    (st, Except.ok none)
  | some pkgs =>
    match installBatch w (installSpecs pkgs) st with
    | (st, Except.error code) => (st, Except.error code)
    | (st, Except.ok installed) => (st, Except.ok (some installed))

/-! ## Uninstall (`src/index.ts:166-205`) -/

/-- Embeds `uninstallOne` (`src/index.ts:184-205`): extract the name
(`process.exit(1)` when `null`), run `pip3 uninstall -y`, `process.exit(1)`
on a tool error; when the tool output contains `as it is not installed`,
print `no package found` and `process.exit(1)`; otherwise read the manifest,
drop the entry and write it back — a per-item read-modify-write. -/
def uninstallOne (w : World) (pkg : Option String) (st : St) :
    St × Except Nat String :=
  match extractPackageName pkg with
  | none => (st.emit (Effect.consoleErr "Invalid package name"), Except.error 1)
  | some pkgName =>
    let r0 := mWithVenvGet w ("pip3 uninstall -y " ++ pkgName) st
    let st := r0.2
    match r0.1 with
    | Except.error msg => (st.emit (Effect.consoleErr msg), Except.error 1)
    | Except.ok res =>
      if includesSub res "as it is not installed" then
        (st.emit (Effect.consoleOut "no package found"), Except.error 1)
      else
        let r1 := mReadManifest st
        let existingDependencies := r1.1.filter (fun dep => dep.name != pkgName)
        let st := mWriteManifest existingDependencies r1.2
        (st, Except.ok pkgName)

/-- The batch of concurrent `uninstallOne` tasks joined by `Promise.all`
(`src/index.ts:171-176`), serialized in list order (same caveat as
`installBatch`). -/
def uninstallBatch (w : World) (specs : List String) (st : St) :
    St × Except Nat (List String) :=
  match specs with
  | [] => (st, Except.ok [])
  | pkg :: rest =>
    match uninstallOne w (some pkg) st with
    | (st, Except.error code) => (st, Except.error code)
    | (st, Except.ok r) =>
      match uninstallBatch w rest st with
      | (st, Except.error code) => (st, Except.error code)
      | (st, Except.ok rs) => (st, Except.ok (r :: rs))

/-- Embeds `uninstall` (`src/index.ts:166-182`): no argument is a non-fatal
diagnostic; otherwise the argument is split on spaces and each piece becomes
one concurrent `uninstallOne` task. -/
def uninstallCommand (w : World) (arg : Option String) (st : St) :
    St × Except Nat (Option (List String)) :=
  match arg with
  | none => (st.emit (Effect.consoleErr "No package provided"), Except.ok none)
  | some pkgs =>
    match uninstallBatch w (jsSplitOn pkgs " ") st with
    | (st, Except.error code) => (st, Except.error code)
    | (st, Except.ok names) => (st, Except.ok (some names))

/-! ## The manifest reconciliation steps (shared by `installOne` and
`uninstallOne`) -/

/-- The manifest mutation `installOne` commits: remove any stale entry with
the same name, then append the new requirement (`src/index.ts:250-251,275`). -/
def installStep (m : List Requirement) (pkgName : String) (v : SemVer) :
    List Requirement :=
  m.filter (fun dep => dep.name != pkgName) ++ [{ name := pkgName, version := v }]

/-- The manifest mutation `uninstallOne` commits: remove the entry with the
given name (`src/index.ts:200-203`). -/
def uninstallStep (m : List Requirement) (pkgName : String) : List Requirement :=
  m.filter (fun dep => dep.name != pkgName)

/-! ## Update (`src/index.ts:103-164`) -/

/-- One row of the `pip3 list --outdated` report. -/
structure OutdatedPkg where
  name : String
  currentVersion : SemVer
  latestVersion : SemVer
deriving Repr, DecidableEq

/-- The parsing loop of `update` (`src/index.ts:115-147`): split each line on
runs of whitespace into `name currentVersion latestVersion _type`;
`process.exit(1)` when a field is missing or a version fails semver parsing;
rows named `pip` are skipped. -/
def parseOutdatedLines (lines : List String) (st : St) :
    St × Except Nat (List OutdatedPkg) :=
  match lines with
  | [] => (st, Except.ok [])
  | line :: rest =>
    let parts := jsSplitWs line
    match parts[0]?, parts[1]?, parts[2]? with
    | some name, some currentVersion, some latestVersion =>
      if jsTrim name = "pip" then parseOutdatedLines rest st
      else
        match SemVer.parse (jsTrim currentVersion) with
        | none =>
          (st.emit (Effect.consoleErr ("Invalid semver for " ++ name ++ " (current): " ++ currentVersion)),
            Except.error 1)
        | some currentSemver =>
          match SemVer.parse (jsTrim latestVersion) with
          | none =>
            (st.emit (Effect.consoleErr ("Invalid semver for " ++ name ++ " (latest): " ++ latestVersion)),
              Except.error 1)
          | some latestSemver =>
            match parseOutdatedLines rest st with
            | (st, Except.error code) => (st, Except.error code)
            | (st, Except.ok pkgs) =>
              let row : OutdatedPkg :=
                { name := jsTrim name
                  currentVersion := currentSemver
                  latestVersion := latestSemver }
              (st, Except.ok (row :: pkgs))
    | _, _, _ =>
      (st.emit (Effect.consoleErr ("Invalid line: " ++ line)), Except.error 1)

/-- Embeds `update` (`src/index.ts:103-164`): fetch the outdated report (tool error
is a non-fatal diagnostic), drop the two header lines, parse the rows, then
reinstall each outdated package at its latest version and print a
`current -> latest` summary.  No manifest access anywhere. -/
def update (w : World) (st : St) : St × Except Nat Unit :=
  let r0 := mWithVenvGet w "pip3 list --outdated" st
  let st := r0.2
  match r0.1 with
  | Except.error msg => (st.emit (Effect.consoleErr msg), Except.ok ())
  | Except.ok res =>
    let lines := (jsSplitOn (jsTrim res) "\n").drop 2
    match parseOutdatedLines lines st with
    | (st, Except.error code) => (st, Except.error code)
    | (st, Except.ok packages) =>
      if packages.isEmpty then
        (st.emit (Effect.consoleOut "All packages are up to date"), Except.ok ())
      else
        let st := packages.foldl (fun st pkg =>
          (mWithVenv w ("pip3 install " ++ pkg.name ++ "==" ++ SemVer.toString pkg.latestVersion) st).2) st
        let st := packages.foldl (fun st pkg =>
          st.emit (Effect.consoleOut (pkg.name ++ " " ++ SemVer.toString pkg.currentVersion
            ++ " -> " ++ SemVer.toString pkg.latestVersion))) st
        (st, Except.ok ())

/-! ## Transactional scaffolder (`src/index.ts:280-380`)

The project directory is modelled as a list of paths with set semantics;
each logged path stands for the file or directory (removed recursively as
one unit) that the corresponding `init` step creates. -/

/-- Adds a path to the directory (idempotent: copies overwrite). -/
def fsAdd (fs : List String) (p : String) : List String :=
  if p ∈ fs then fs else fs ++ [p]

/-- Embeds `fs.promises.rm` with the recursive option: without `force: true` a missing
path makes the promise reject (`ENOENT`), modelled as `none`. -/
def rmRec (fs : List String) (p : String) : Option (List String) :=
  if p ∈ fs then some (fs.filter (fun q => q != p)) else none

/-- The `rollback` loop (`src/index.ts:369-380`): remove each logged path in
order; a rejected `rm` aborts the loop (the `Bool` records whether it ran to
completion and reached `process.exit`). -/
def rollbackFs : List String → List String → List String × Bool
  | [], fs => (fs, true)
  | p :: rest, fs =>
    match rmRec fs p with
    | some fs2 => rollbackFs rest fs2
    | none => (fs, false)

/-- Exit code and on-disk effect of one post-copy `init` step: the shell
command's exit code, and whether the step's path exists on disk afterwards
(a failing step may or may not have created its path). -/
structure StepRun where
  exitCode : Nat
  creates : Bool
deriving Repr, DecidableEq

/-- How an `init` run ended. -/
inductive InitOutcome where
  | completed : InitOutcome
  | rolledBack (exitCode : Nat) (rollbackCompleted : Bool) : InitOutcome
deriving Repr, DecidableEq

/-- Final directory contents, accumulated transaction log, and outcome of an
`init` run. -/
structure InitResult where
  fs : List String
  log : List String
  outcome : InitOutcome
deriving Repr, DecidableEq

/-- The linear post-copy phase of `init` (`src/index.ts:310-343`): for each
step, first `addToRollback` its path, then run it; on a non-zero exit code,
roll back every logged path and stop. -/
def runSteps : List (StepRun × String) → List String → List String → InitResult
  | [], log, fs => { fs := fs, log := log, outcome := InitOutcome.completed }
  | (stepRun, p) :: rest, log, fs =>
    let log2 := log ++ [p]
    let fs2 := if stepRun.creates then fsAdd fs p else fs
    if stepRun.exitCode ≠ 0 then
      let r := rollbackFs log2 fs2
      { fs := r.1, log := log2, outcome := InitOutcome.rolledBack stepRun.exitCode r.2 }
    else
      runSteps rest log2 fs2

/-- One `init` run in which the template-copy phase succeeded (the scenario
the rollback claim quantifies over): initial directory contents, the template
destination paths (all copied and logged before the post-copy steps,
`src/index.ts:292-308`), and the behavior of the four post-copy steps. -/
structure InitScenario where
  fs0 : List String
  templateDests : List String
  venvStep : StepRun
  reqsStep : StepRun
  mainStep : StepRun
  gitStep : StepRun

/-- The fixed order of the post-copy steps with their logged paths
(`src/index.ts:314,325,332,339`). -/
def initStepList (sc : InitScenario) : List (StepRun × String) :=
  [(sc.venvStep, ".venv"), (sc.reqsStep, "requirements.txt"),
   (sc.mainStep, "main.py"), (sc.gitStep, ".git")]

/-- Embeds `init` (`src/index.ts:280-363`) for a scenario whose copy phase
succeeded: the template destinations are on disk and logged, then the four
post-copy steps run in order. -/
def runInit (sc : InitScenario) : InitResult :=
  runSteps (initStepList sc) sc.templateDests (sc.templateDests.foldl fsAdd sc.fs0)

/-! ## CLI argument plumbing (`src/utils.ts:31-39`) -/

/-- Embeds `parseInput` (`src/utils.ts:31-39`) restricted to its positional part:
the command is `positionals[0]` and the single argument handed to the command
is `positionals.slice(1)[0]` — every later positional is dropped. -/
def parseInputPositionals (positionals : List String) :
    Option String × Option String :=
  (positionals[0]?, (positionals.drop 1)[0]?)

/-! ## Auxiliary definitions used by the theorems -/

/-- Whether an effect is a manifest write. -/
def isWrite : Effect → Bool
  | Effect.manifestWrite _ => true
  | _ => false

/-- Number of manifest writes in a trace. -/
def writeCount (tr : List Effect) : Nat :=
  (tr.filter isWrite).length

/-- Whether an effect touches the manifest file (read or write). -/
def isManifestOp : Effect → Bool
  | Effect.manifestRead => true
  | Effect.manifestWrite _ => true
  | _ => false

/-- The subtrace of manifest accesses. -/
def manifestOps (tr : List Effect) : List Effect :=
  tr.filter isManifestOp

/-- At most one requirement per name (§3's uniqueness invariant). -/
def namesUnique (m : List Requirement) : Prop :=
  m.Pairwise (fun a b => a.name ≠ b.name)

/-- The version `1.0.0`. -/
def v100 : SemVer := { major := 1, minor := 0, patch := 0, metadata := none }

/-- A tool on which every command succeeds and `pip3 show` reports
`Version: 1.0.0`. -/
def goodTool : Tool :=
  { runExit := fun _ => 0, getOut := fun _ => Except.ok "Name: x\nVersion: 1.0.0" }

/-- A world with an existing environment and `goodTool`. -/
def goodWorld : World := { envExists := true, tool := goodTool }

/-- A tool whose captured output reports the uninstall target as not
installed (pip's `Skipping ... as it is not installed`). -/
def notInstalledTool : Tool :=
  { runExit := fun _ => 0, getOut := fun _ => Except.ok "Skipping foo as it is not installed" }

/-- A world with an existing environment and `notInstalledTool`. -/
def notInstalledWorld : World := { envExists := true, tool := notInstalledTool }

/-- Empty starting state. -/
def st0 : St := { manifest := [], trace := [] }

/-- Starting state whose manifest holds `foo==1.0.0`. -/
def stFoo : St := { manifest := [{ name := "foo", version := v100 }], trace := [] }

/-- A concrete scaffold scenario: the template copies succeeded and the
environment-creation step then fails without creating `.venv`. -/
def scWitness : InitScenario where
  fs0 := ["keep.txt"]
  templateDests := ["README.md", ".gitignore"]
  venvStep := { exitCode := 1, creates := false }
  reqsStep := { exitCode := 0, creates := true }
  mainStep := { exitCode := 0, creates := true }
  gitStep := { exitCode := 0, creates := true }

/-! # Theorems -/

/-! ## Generic trace lemmas -/

theorem writeCount_append (t1 t2 : List Effect) :
    writeCount (t1 ++ t2) = writeCount t1 + writeCount t2 := by
  simp [writeCount, List.filter_append]

theorem manifestOps_append (t1 t2 : List Effect) :
    manifestOps (t1 ++ t2) = manifestOps t1 ++ manifestOps t2 := by
  simp [manifestOps, List.filter_append]

/-! ## C6: `extractPackageName` on source-URL specifiers -/

/-- C6 (code_bug): the spec says a source-URL specifier with a `.git` suffix
and a trailing `@ref` yields the repo name without the suffix, but on
`git+https://github.com/org/repo.git@main` the code returns `repo.git`: the
greedy `[\w.-]+` segment of the URL regex absorbs `.git`, so the dedicated
`(\.git)?` group can never match.  Without a `.git` suffix the URL form does
return the repo name. -/
theorem c6_extractName_url_failing_input :
    extractPackageName (some "git+https://github.com/org/repo.git@main") = some "repo.git" ∧
    extractPackageName (some "git+https://github.com/org/repo.git@main") ≠ some "repo" ∧
    extractPackageName (some "git+https://github.com/org/repo@main") = some "repo" ∧
    extractPackageName (some "https://github.com/org/repo") = some "repo" := by
  decide

/-! ## C9: adapter behavior when the environment marker is missing -/

/-- C9 (confirmed): when the `.venv/bin/activate` marker does not exist,
`withVenv` returns the sentinel exit code 1 and `withVenvGet` returns the
environment-missing error, and neither spawns a child process (the spawned
command list is empty), for every shell behavior and command. -/
theorem c9_env_missing (sh : String → Nat) (g : String → Except String String)
    (command : String) :
    withVenv false sh command = (1, []) ∧
    withVenvGet false g command = (Except.error "No virtual environment found", []) := by
  exact ⟨rfl, rfl⟩

/-! ## C10: positional-argument plumbing of install/uninstall -/

/-- C10 (confirmed): `parseInput` hands the engine only the first positional
after the command name — a second space-separated command-line argument is
dropped; multiple packages are processed only when passed as one argument,
which `install`/`uninstall` split on single space characters, so consecutive
spaces yield an empty specifier, which is an invalid package name. -/
theorem c10_arg_plumbing (cmd a1 a2 : String) (rest : List String) :
    parseInputPositionals (cmd :: a1 :: a2 :: rest) = (some cmd, some a1) ∧
    installSpecs "pkg1  pkg2" = ["pkg1", "", "pkg2"] ∧
    extractPackageName (some "") = none := by
  refine ⟨rfl, by decide, by decide⟩

/-! ## C1: manifest writes of an install batch -/

/-- C1 counterexample: an install batch of the two specifiers `a` and `b`
(all tool calls succeeding) performs two manifest writes — one inside each
per-package task — not the single batch-level read-modify-write the claim
states. -/
theorem c1_counterexample :
    writeCount (installBatch goodWorld ["a", "b"] st0).1.trace = 2 ∧
    writeCount (installBatch goodWorld ["a", "b"] st0).1.trace ≠ 1 := by
  decide

/-! ## C2: per-package failure isolation -/

/-- C2 counterexample: a batch of one valid (`goodpkg`) and one invalid (the
empty string) specifier does not yield one `Installed` and one `Failed`
outcome — `installOne` calls `process.exit(1)` on the invalid specifier, so
the whole batch (and process) aborts with exit code 1 and no per-package
outcome list is produced. -/
theorem c2_counterexample :
    extractPackageName (some "") = none ∧
    (installBatch goodWorld ["goodpkg", ""] st0).2 = Except.error 1 := by
  decide

/-! ## C3: totality of the manifest read -/

/-- C3 counterexample: with the manifest file missing,
`getExistingDependencies` logs the non-fatal-looking diagnostic but then
still calls `readFile`, whose promise rejects — the read fails the caller
instead of returning the empty sequence. -/
theorem c3_counterexample :
    (getExistingDependencies none).diags = ["No requirements.txt found"] ∧
    (getExistingDependencies none).result = Except.error "ENOENT" ∧
    (getExistingDependencies none).result ≠ Except.ok [] := by
  decide

/-! ## C4: uninstalling a package the tool reports as not installed -/

/-- C4 counterexample: when the tool output contains `as it is not
installed`, `uninstallOne` prints `no package found` and calls
`process.exit(1)` — the per-package outcome is a process-aborting failure,
not an `AlreadyAbsent` success (no such outcome exists in the code); the
manifest half of the claim does hold (no write occurs). -/
theorem c4_counterexample :
    (uninstallOne notInstalledWorld (some "foo") stFoo).2 = Except.error 1 ∧
    (uninstallOne notInstalledWorld (some "foo") stFoo).1.manifest = stFoo.manifest ∧
    writeCount (uninstallOne notInstalledWorld (some "foo") stFoo).1.trace = 0 := by
  decide

/-! ## Structural behavior of `installOne` under `goodTool` -/

theorem versionFromShow_good : versionFromShow "Name: x\nVersion: 1.0.0" = some "1.0.0" := by
  decide

theorem semVer_parse_100 : SemVer.parse "1.0.0" = some v100 := by
  decide

/-- Under `goodWorld`, a specifier whose name extraction succeeds runs the
full `installOne` pipeline: one manifest read, two spawns, then one manifest
write of the reconciled list, ending in a successful item result. -/
theorem installOne_goodWorld_eq (pkg nm : String) (st : St)
    (h : extractPackageName (some pkg) = some nm) :
    installOne goodWorld pkg st =
      ({ manifest := installStep st.manifest nm v100
         trace := st.trace ++ [Effect.manifestRead,
           Effect.spawn (withVenvCmd ("pip3 install " ++ pkg)),
           Effect.spawn (withVenvCmd ("pip3 show " ++ nm)),
           Effect.manifestWrite (installStep st.manifest nm v100)] },
        Except.ok (pkg, "1.0.0")) := by
  unfold installOne
  rw [h]
  simp [mReadManifest, mWithVenv, mWithVenvGet, withVenv, withVenvGet, goodWorld, goodTool,
    St.emit, mWriteManifest, installStep, versionFromShow_good, semVer_parse_100]

/-- C1 amended: each per-package install task performs its own manifest
read-modify-write during the (serialized) concurrent phase, so a batch of
`n` specifiers that all succeed performs exactly `n` manifest writes — not
one batch-level write; each write still happens inside the batch, before the
result is reported. -/
theorem c1_amended (specs : List String) (st : St)
    (h : ∀ s ∈ specs, (extractPackageName (some s)).isSome) :
    writeCount (installBatch goodWorld specs st).1.trace =
      writeCount st.trace + specs.length := by
  induction specs generalizing st with
  | nil => simp [installBatch]
  | cons p rest ih =>
    rcases Option.isSome_iff_exists.mp (h p (by simp)) with ⟨nm, hnm⟩
    have hrest : ∀ s ∈ rest, (extractPackageName (some s)).isSome :=
      fun s hs => h s (by simp [hs])
    rcases h1 : installOne goodWorld p st with ⟨st1, r1⟩
    have he := installOne_goodWorld_eq p nm st hnm
    rw [h1] at he
    have hw : writeCount st1.trace = writeCount st.trace + 1 := by
      have := congrArg (fun x => writeCount x.1.trace) he
      simpa [writeCount_append, writeCount, isWrite] using this
    have hok : r1 = Except.ok (p, "1.0.0") := congrArg Prod.snd he
    rw [installBatch, h1, hok]
    rcases hb : installBatch goodWorld rest st1 with ⟨st2, r2⟩
    have hcount := ih st1 hrest
    rw [hb] at hcount
    cases r2 with
    | error code => dsimp only; rw [hb]; simp at hcount ⊢; omega
    | ok rs => dsimp only; rw [hb]; simp at hcount ⊢; omega

theorem c1_amended_witness :
    writeCount (installBatch goodWorld ["a", "b"] st0).1.trace =
      writeCount st0.trace + ["a", "b"].length :=
  c1_amended ["a", "b"] st0 (by decide)

/-! ## Process-exit propagation through batches -/

/-- Every failure path of `installOne` is a `process.exit(1)`. -/
theorem installOne_result (w : World) (p : String) (st : St) :
    (installOne w p st).2 = Except.error 1 ∨ ∃ r, (installOne w p st).2 = Except.ok r := by
  unfold installOne
  dsimp only
  repeat' split
  all_goals simp

/-- Every failure path of `uninstallOne` is a `process.exit(1)`. -/
theorem uninstallOne_result (w : World) (p : Option String) (st : St) :
    (uninstallOne w p st).2 = Except.error 1 ∨ ∃ r, (uninstallOne w p st).2 = Except.ok r := by
  unfold uninstallOne
  dsimp only
  repeat' split
  all_goals simp

/-- An invalid specifier makes `installOne` exit the process with code 1. -/
theorem installOne_invalid (w : World) (p : String) (st : St)
    (h : extractPackageName (some p) = none) :
    (installOne w p st).2 = Except.error 1 := by
  unfold installOne
  rw [h]

/-- An invalid specifier makes `uninstallOne` exit the process with code 1. -/
theorem uninstallOne_invalid (w : World) (p : Option String) (st : St)
    (h : extractPackageName p = none) :
    (uninstallOne w p st).2 = Except.error 1 := by
  unfold uninstallOne
  rw [h]

/-- A batch containing a specifier whose name extraction fails aborts the
whole process with exit code 1. -/
theorem installBatch_abort (w : World) (specs : List String) (st : St)
    (h : ∃ s ∈ specs, extractPackageName (some s) = none) :
    (installBatch w specs st).2 = Except.error 1 := by
  induction specs generalizing st with
  | nil => simp at h
  | cons p rest ih =>
    rcases h with ⟨s, hs, hnone⟩
    rw [installBatch]
    rcases h1 : installOne w p st with ⟨st1, r1⟩
    cases r1 with
    | error code =>
      have hres := installOne_result w p st
      rw [h1] at hres
      simp at hres
      simp [hres]
    | ok r =>
      rcases List.mem_cons.mp hs with rfl | hsrest
      · have := installOne_invalid w s st hnone
        rw [h1] at this
        simp at this
      · dsimp only
        have hr := ih st1 ⟨s, hsrest, hnone⟩
        rcases h2 : installBatch w rest st1 with ⟨st2, r2⟩
        rw [h2] at hr
        cases r2 with
        | error code => simp at hr; simp [hr]
        | ok rs => simp at hr
  -- wait: structure of goal after dsimp needs h2 rewrite

/-- A batch containing a specifier whose name extraction fails aborts the
whole process with exit code 1 (uninstall side). -/
theorem uninstallBatch_abort (w : World) (specs : List String) (st : St)
    (h : ∃ s ∈ specs, extractPackageName (some s) = none) :
    (uninstallBatch w specs st).2 = Except.error 1 := by
  induction specs generalizing st with
  | nil => simp at h
  | cons p rest ih =>
    rcases h with ⟨s, hs, hnone⟩
    rw [uninstallBatch]
    rcases h1 : uninstallOne w (some p) st with ⟨st1, r1⟩
    cases r1 with
    | error code =>
      have hres := uninstallOne_result w (some p) st
      rw [h1] at hres
      simp at hres
      simp [hres]
    | ok r =>
      rcases List.mem_cons.mp hs with rfl | hsrest
      · have := uninstallOne_invalid w (some s) st hnone
        rw [h1] at this
        simp at this
      · dsimp only
        have hr := ih st1 ⟨s, hsrest, hnone⟩
        rcases h2 : uninstallBatch w rest st1 with ⟨st2, r2⟩
        rw [h2] at hr
        cases r2 with
        | error code => simp at hr; simp [hr]
        | ok rs => simp at hr

/-- C2 amended: a per-package failure does not isolate — an invalid
specifier anywhere in an install or uninstall batch terminates the entire
process with exit code 1, aborting sibling packages; no per-package outcome
list (one `Installed`/`Uninstalled` plus one `Failed`) is ever produced. -/
theorem c2_amended (w : World) (specs : List String) (st : St)
    (h : ∃ s ∈ specs, extractPackageName (some s) = none) :
    (installBatch w specs st).2 = Except.error 1 ∧
    (uninstallBatch w specs st).2 = Except.error 1 :=
  ⟨installBatch_abort w specs st h, uninstallBatch_abort w specs st h⟩

theorem c2_amended_witness :
    (installBatch goodWorld ["goodpkg", ""] st0).2 = Except.error 1 ∧
    (uninstallBatch goodWorld ["goodpkg", ""] st0).2 = Except.error 1 :=
  c2_amended goodWorld ["goodpkg", ""] st0 ⟨"", by decide, by decide⟩

/-! ## C3/C4 amended statements -/

/-- C3 amended: when the manifest file is missing the read emits the
diagnostic and then fails the caller with the rejected `readFile` error
(instead of returning the empty sequence); when the file exists the read is
total — it returns exactly the lines whose halves are present and whose
version parses, every other line being skipped. -/
theorem c3_amended (content : String) :
    ((getExistingDependencies none).diags = ["No requirements.txt found"] ∧
      (getExistingDependencies none).result = Except.error "ENOENT") ∧
    (getExistingDependencies (some content)).result =
      Except.ok ((jsSplitOn (jsTrim content) "\n").filterMap
        (fun line => (parseRequirementLine line).1)) := by
  refine ⟨⟨rfl, rfl⟩, ?_⟩
  simp [getExistingDependencies, List.filterMap_map, Function.comp_def]

/-- C4 amended: a tool-reported not-installed condition makes `uninstallOne`
print `no package found` and exit the process with code 1 — there is no
`AlreadyAbsent` outcome — while the manifest is indeed left untouched: its
content is unchanged and the run performs no manifest read or write. -/
theorem c4_amended (w : World) (pkg pkgName res : String) (st : St)
    (hname : extractPackageName (some pkg) = some pkgName)
    (henv : w.envExists = true)
    (hout : w.tool.getOut (withVenvCmd ("pip3 uninstall -y " ++ pkgName)) = Except.ok res)
    (hphrase : includesSub res "as it is not installed" = true) :
    (uninstallOne w (some pkg) st).2 = Except.error 1 ∧
    (uninstallOne w (some pkg) st).1.manifest = st.manifest ∧
    manifestOps (uninstallOne w (some pkg) st).1.trace = manifestOps st.trace := by
  unfold uninstallOne
  rw [hname]
  simp [mWithVenvGet, withVenvGet, henv, hout, hphrase, St.emit, manifestOps,
    isManifestOp, List.filter_append]

theorem c4_amended_witness :
    (uninstallOne notInstalledWorld (some "foo") stFoo).2 = Except.error 1 ∧
    (uninstallOne notInstalledWorld (some "foo") stFoo).1.manifest = stFoo.manifest ∧
    manifestOps (uninstallOne notInstalledWorld (some "foo") stFoo).1.trace =
      manifestOps stFoo.trace :=
  c4_amended notInstalledWorld "foo" "foo" "Skipping foo as it is not installed" stFoo
    (by decide) rfl rfl (by decide)

/-! ## C7: reconciliation keeps at most one entry per name -/

/-- C7 (confirmed): the reconciliation step removes the stale entry for a
name before appending its replacement, so (1) two sequential installs of the
same name leave exactly one entry for it, carrying the later version;
(2)(3) both reconciliation steps preserve the at-most-one-entry-per-name
invariant; and (4) at code level, running `installOne` twice in sequence for
the same extracted name produces the doubly-reconciled manifest. -/
theorem c7_unique_per_name (m : List Requirement) (n : String) (v1 v2 : SemVer) :
    ((installStep (installStep m n v1) n v2).filter (fun d => d.name == n) =
      [{ name := n, version := v2 }]) ∧
    (namesUnique m → namesUnique (installStep m n v2)) ∧
    (namesUnique m → namesUnique (uninstallStep m n)) ∧
    (∀ pkg st, extractPackageName (some pkg) = some n →
      ((installOne goodWorld pkg ((installOne goodWorld pkg st).1)).1).manifest =
        installStep (installStep st.manifest n v100) n v100) := by
  refine ⟨?_, ?_, ?_, ?_⟩
  · simp [installStep, List.filter_append, List.filter_filter]
  · intro hu
    unfold namesUnique installStep
    rw [List.pairwise_append]
    refine ⟨hu.sublist (List.filter_sublist m), List.pairwise_singleton _ _, ?_⟩
    intro a ha b hb
    rcases List.mem_filter.mp ha with ⟨_, hne⟩
    simp at hb
    subst hb
    simpa using hne
  · intro hu
    exact hu.sublist (List.filter_sublist m)
  · intro pkg st h
    rw [installOne_goodWorld_eq pkg n st h]
    rw [installOne_goodWorld_eq pkg n _ h]

theorem c7_unique_per_name_witness :
    ((installStep (installStep [{ name := "b", version := v100 }] "a" v100) "a" v100).filter
      (fun d => d.name == "a") = [{ name := "a", version := v100 }]) ∧
    namesUnique (installStep [{ name := "b", version := v100 }] "a" v100) := by
  have h := c7_unique_per_name [{ name := "b", version := v100 }] "a" v100 v100
  exact ⟨h.1, h.2.1 (by simp [namesUnique])⟩

/-! ## C8: `update` never touches the manifest -/

theorem manifestOps_spawns (cmds : List String) :
    manifestOps (cmds.map Effect.spawn) = [] := by
  induction cmds <;> simp_all [manifestOps, isManifestOp]

theorem mWithVenv_manifest (w : World) (c : String) (st : St) :
    ((mWithVenv w c st).2).manifest = st.manifest := rfl

theorem mWithVenv_ops (w : World) (c : String) (st : St) :
    manifestOps ((mWithVenv w c st).2).trace = manifestOps st.trace := by
  simp [mWithVenv, manifestOps_append, manifestOps_spawns]

theorem mWithVenvGet_manifest (w : World) (c : String) (st : St) :
    ((mWithVenvGet w c st).2).manifest = st.manifest := rfl

theorem mWithVenvGet_ops (w : World) (c : String) (st : St) :
    manifestOps ((mWithVenvGet w c st).2).trace = manifestOps st.trace := by
  simp [mWithVenvGet, manifestOps_append, manifestOps_spawns]

/-- The `update` parsing loop neither changes the manifest nor emits any
manifest read/write effect. -/
theorem parseOutdatedLines_frame (lines : List String) (st : St) :
    ((parseOutdatedLines lines st).1).manifest = st.manifest ∧
    manifestOps ((parseOutdatedLines lines st).1).trace = manifestOps st.trace := by
  induction lines generalizing st with
  | nil => exact ⟨rfl, rfl⟩
  | cons line rest ih =>
    rw [parseOutdatedLines]
    dsimp only
    split
    · split
      · exact ih st
      · split
        · simp [St.emit, manifestOps_append, manifestOps, isManifestOp]
        · split
          · simp [St.emit, manifestOps_append, manifestOps, isManifestOp]
          · rcases hrec : parseOutdatedLines rest st with ⟨st2, r2⟩
            have hih := ih st
            rw [hrec] at hih
            cases r2 <;> simpa using hih
    · simp [St.emit, manifestOps_append, manifestOps, isManifestOp]

/-- The reinstall loop of `update` only spawns tool processes. -/
theorem updateInstallLoop_frame (w : World) (l : List OutdatedPkg) (st : St) :
    ((l.foldl (fun st pkg =>
        (mWithVenv w ("pip3 install " ++ pkg.name ++ "==" ++ SemVer.toString pkg.latestVersion) st).2)
      st)).manifest = st.manifest ∧
    manifestOps (l.foldl (fun st pkg =>
        (mWithVenv w ("pip3 install " ++ pkg.name ++ "==" ++ SemVer.toString pkg.latestVersion) st).2)
      st).trace = manifestOps st.trace := by
  induction l generalizing st with
  | nil => exact ⟨rfl, rfl⟩
  | cons pkg rest ih =>
    simp only [List.foldl_cons]
    have h := ih ((mWithVenv w ("pip3 install " ++ pkg.name ++ "==" ++ SemVer.toString pkg.latestVersion) st).2)
    exact ⟨h.1.trans (mWithVenv_manifest w _ st), h.2.trans (mWithVenv_ops w _ st)⟩

/-- The summary loop of `update` only prints. -/
theorem updateSummaryLoop_frame (l : List OutdatedPkg) (st : St) :
    ((l.foldl (fun st pkg =>
        st.emit (Effect.consoleOut (pkg.name ++ " " ++ SemVer.toString pkg.currentVersion
          ++ " -> " ++ SemVer.toString pkg.latestVersion)))
      st)).manifest = st.manifest ∧
    manifestOps (l.foldl (fun st pkg =>
        st.emit (Effect.consoleOut (pkg.name ++ " " ++ SemVer.toString pkg.currentVersion
          ++ " -> " ++ SemVer.toString pkg.latestVersion)))
      st).trace = manifestOps st.trace := by
  induction l generalizing st with
  | nil => exact ⟨rfl, rfl⟩
  | cons pkg rest ih =>
    simp only [List.foldl_cons]
    have h := ih (st.emit (Effect.consoleOut (pkg.name ++ " " ++ SemVer.toString pkg.currentVersion
      ++ " -> " ++ SemVer.toString pkg.latestVersion)))
    refine ⟨h.1.trans rfl, h.2.trans ?_⟩
    simp [St.emit, manifestOps_append, manifestOps, isManifestOp]

/-- C8 (confirmed): `update` never reads or writes the manifest file — for
every tool behavior and starting state the manifest is identical before and
after, and the run's trace contains no manifest access beyond those already
in the starting trace; recorded versions therefore remain stale after
outdated packages are reinstalled. -/
theorem c8_update_never_touches_manifest (w : World) (st : St) :
    (update w st).1.manifest = st.manifest ∧
    manifestOps (update w st).1.trace = manifestOps st.trace := by
  rw [update]
  dsimp only
  split
  · constructor
    · simpa [St.emit] using mWithVenvGet_manifest w "pip3 list --outdated" st
    · rw [St.emit]
      dsimp only
      rw [manifestOps_append]
      have h1 := mWithVenvGet_ops w "pip3 list --outdated" st
      simp [manifestOps, isManifestOp, h1]
      exact h1
  · rename_i res hres
    rcases hrec : parseOutdatedLines
        ((jsSplitOn (jsTrim res) "\n").drop 2) ((mWithVenvGet w "pip3 list --outdated" st).2)
      with ⟨st2, r2⟩
    have hpf := parseOutdatedLines_frame
      ((jsSplitOn (jsTrim res) "\n").drop 2) ((mWithVenvGet w "pip3 list --outdated" st).2)
    rw [hrec] at hpf
    have hm2 : st2.manifest = st.manifest := by
      have h := hpf.1
      simp at h
      exact h.trans (mWithVenvGet_manifest w "pip3 list --outdated" st)
    have ho2 : manifestOps st2.trace = manifestOps st.trace := by
      have h := hpf.2
      simp at h
      exact h.trans (mWithVenvGet_ops w "pip3 list --outdated" st)
    cases r2 with
    | error code =>
      dsimp only
      exact ⟨hm2, ho2⟩
    | ok packages =>
      dsimp only
      split
      · constructor
        · simpa [St.emit] using hm2
        · rw [St.emit]
          dsimp only
          rw [manifestOps_append]
          have hc : manifestOps [Effect.consoleOut "All packages are up to date"] = [] := by
            simp [manifestOps, isManifestOp]
          rw [hc]
          simpa using ho2
      · have hil := updateInstallLoop_frame w packages st2
        have hsl := updateSummaryLoop_frame packages
          (packages.foldl (fun st pkg =>
            (mWithVenv w ("pip3 install " ++ pkg.name ++ "==" ++ SemVer.toString pkg.latestVersion) st).2) st2)
        exact ⟨hsl.1.trans (hil.1.trans hm2), hsl.2.trans (hil.2.trans ho2)⟩

/-! ## C5: scaffold rollback removes the whole transaction -/

/-- The rollback loop never adds files: everything left was there before. -/
theorem rollbackFs_mem_of_mem (log : List String) :
    ∀ fs, ∀ a ∈ (rollbackFs log fs).1, a ∈ fs := by
  induction log with
  | nil => intro fs a ha; simpa [rollbackFs] using ha
  | cons p rest ih =>
    intro fs a ha
    rw [rollbackFs] at ha
    rcases h : rmRec fs p with _ | fs2
    · rw [h] at ha
      simpa using ha
    · rw [h] at ha
      have h2 := ih fs2 a (by simpa using ha)
      unfold rmRec at h
      split at h
      · injection h with h
        subst h
        exact (List.mem_filter.mp h2).1
      · cases h

/-- If every logged path except possibly the last is on disk, running the
rollback loop leaves none of the logged paths on disk (the loop may abort
with `ENOENT` only at the last, never-created path). -/
theorem rollbackFs_clears (log : List String) :
    ∀ fs, log.Nodup → (∀ p ∈ log.dropLast, p ∈ fs) →
      ∀ p ∈ log, p ∉ (rollbackFs log fs).1 := by
  induction log with
  | nil => intro fs _ _ p hp; cases hp
  | cons q rest ih =>
    intro fs hnd hpres p hp
    rw [rollbackFs]
    cases rest with
    | nil =>
      simp at hp
      subst hp
      rcases h : rmRec fs p with _ | fs2
      · unfold rmRec at h
        split at h
        · cases h
        · rename_i hmem
          simpa [rollbackFs] using hmem
      · unfold rmRec at h
        split at h
        · injection h with h
          subst h
          simp [rollbackFs, List.mem_filter]
        · cases h
    | cons r rs =>
      have hq : q ∈ fs := hpres q (by rw [List.dropLast_cons₂]; exact List.mem_cons_self q _)
      have hrm : rmRec fs q = some (fs.filter (fun x => x != q)) := by
        unfold rmRec
        simp [hq]
      rw [hrm]
      have hqnot : q ∉ (r :: rs) := (List.nodup_cons.mp hnd).1
      have hpres2 : ∀ x ∈ (r :: rs).dropLast, x ∈ fs.filter (fun y => y != q) := by
        intro x hx
        have hxfs : x ∈ fs := by
          refine hpres x ?_
          rw [List.dropLast_cons₂]
          exact List.mem_cons_of_mem q hx
        have hxq : x ≠ q := by
          intro he
          subst he
          exact hqnot ((List.dropLast_sublist (r :: rs)).subset hx)
        exact List.mem_filter.mpr ⟨hxfs, by simpa using hxq⟩
      rcases List.mem_cons.mp hp with rfl | hprest
      · intro hcon
        have hsub := rollbackFs_mem_of_mem (r :: rs) (fs.filter (fun y => y != p)) p (by simpa using hcon)
        simp [List.mem_filter] at hsub
      · exact ih (fs.filter (fun y => y != q)) (List.Nodup.of_cons hnd) hpres2 p hprest

/-- Adding to the modelled directory preserves membership. -/
theorem mem_fsAdd_of_mem {a : String} {fs : List String} (h : a ∈ fs) (p : String) :
    a ∈ fsAdd fs p := by
  unfold fsAdd
  split
  · exact h
  · simp [h]

/-- The added path is in the modelled directory. -/
theorem mem_fsAdd_self (fs : List String) (p : String) : p ∈ fsAdd fs p := by
  unfold fsAdd
  split
  · assumption
  · simp

/-- Folding `fsAdd` preserves membership. -/
theorem mem_foldl_fsAdd_of_mem {a : String} :
    ∀ (l init : List String), a ∈ init → a ∈ l.foldl fsAdd init := by
  intro l
  induction l with
  | nil => intro init h; simpa using h
  | cons p rest ih => intro init h; exact ih _ (mem_fsAdd_of_mem h p)

/-- Every copied template destination ends up in the modelled directory. -/
theorem mem_foldl_fsAdd {a : String} :
    ∀ (l init : List String), a ∈ l → a ∈ l.foldl fsAdd init := by
  intro l
  induction l with
  | nil => intro init h; cases h
  | cons p rest ih =>
    intro init h
    rcases List.mem_cons.mp h with rfl | h2
    · exact mem_foldl_fsAdd_of_mem rest _ (mem_fsAdd_self init a)
    · exact ih _ h2

/-- If the post-copy phase does not complete, every logged path is removed
from disk before the run reports its outcome. -/
theorem runSteps_clears :
    ∀ (steps : List (StepRun × String)) (log fs : List String),
      (log ++ steps.map Prod.snd).Nodup →
      (∀ p ∈ log, p ∈ fs) →
      (∀ s ∈ steps, s.1.exitCode = 0 → s.1.creates = true) →
      (runSteps steps log fs).outcome ≠ InitOutcome.completed →
      ∀ p ∈ (runSteps steps log fs).log, p ∉ (runSteps steps log fs).fs := by
  intro steps
  induction steps with
  | nil =>
    intro log fs _ _ _ hfail
    exact absurd rfl hfail
  | cons sp rest ih =>
    rcases sp with ⟨sr, q⟩
    intro log fs hnd hlog hcr hfail
    simp only [runSteps] at hfail ⊢
    by_cases h0 : sr.exitCode = 0
    · rw [if_neg (by simp [h0])] at hfail ⊢
      have hcre : sr.creates = true := hcr (sr, q) (List.mem_cons_self _ _) h0
      rw [hcre] at hfail ⊢
      simp only [if_true] at hfail ⊢
      apply ih (log ++ [q]) (fsAdd fs q) ?_ ?_ ?_ hfail
      · have hshape : (log ++ [q]) ++ rest.map Prod.snd = log ++ ((sr, q) :: rest).map Prod.snd := by
          simp
        rw [hshape]
        exact hnd
      · intro p hp
        rcases List.mem_append.mp hp with h1 | h1
        · exact mem_fsAdd_of_mem (hlog p h1) q
        · simp at h1
          subst h1
          exact mem_fsAdd_self fs p
      · intro s hs
        exact hcr s (List.mem_cons_of_mem _ hs)
    · rw [if_pos h0] at hfail ⊢
      intro p hp
      dsimp only at hp ⊢
      apply rollbackFs_clears (log ++ [q]) _ ?_ ?_ p hp
      · refine List.Nodup.sublist ?_ hnd
        refine List.Sublist.append_left ?_ log
        simp only [List.map_cons]
        exact List.cons_sublist_cons.mpr (List.nil_sublist (rest.map Prod.snd))
      · intro x hx
        rw [List.dropLast_concat] at hx
        have hxfs := hlog x hx
        split
        · exact mem_fsAdd_of_mem hxfs q
        · exact hxfs

/-- C5 (confirmed, for runs whose template-copy phase succeeded): when any
post-copy `init` step fails after its predecessors succeeded, every path
accumulated in the transaction log — the copied template files and the step
paths — is absent from the project directory after the rollback that runs
before the failure is reported; in particular a failing environment-creation
step leaves zero residual transaction files. -/
theorem c5_init_rollback (sc : InitScenario)
    (hnd : (sc.templateDests ++ [".venv", "requirements.txt", "main.py", ".git"]).Nodup)
    (hv : sc.venvStep.exitCode = 0 → sc.venvStep.creates = true)
    (hq : sc.reqsStep.exitCode = 0 → sc.reqsStep.creates = true)
    (hm : sc.mainStep.exitCode = 0 → sc.mainStep.creates = true)
    (hg : sc.gitStep.exitCode = 0 → sc.gitStep.creates = true)
    (hfail : (runInit sc).outcome ≠ InitOutcome.completed) :
    ∀ p ∈ (runInit sc).log, p ∉ (runInit sc).fs := by
  rw [runInit] at hfail ⊢
  apply runSteps_clears (initStepList sc) sc.templateDests
    (sc.templateDests.foldl fsAdd sc.fs0) ?_ ?_ ?_ hfail
  · exact hnd
  · intro p hp
    exact mem_foldl_fsAdd _ _ hp
  · intro s hs
    simp [initStepList] at hs
    rcases hs with rfl | rfl | rfl | rfl
    · exact hv
    · exact hq
    · exact hm
    · exact hg

theorem c5_init_rollback_witness :
    "README.md" ∉ (runInit scWitness).fs ∧ ".venv" ∉ (runInit scWitness).fs :=
  ⟨c5_init_rollback scWitness (by decide) (by decide) (by decide) (by decide) (by decide)
      (by decide) "README.md" (by decide),
    c5_init_rollback scWitness (by decide) (by decide) (by decide) (by decide) (by decide)
      (by decide) ".venv" (by decide)⟩

end Venv
